import Mathlib

/-!
Shallow embedding of the strip-partition / parity-interleave / rotate pipeline
implemented in src/main.py, together with proofs of the specified properties.

Pixel buffers are modelled as a width, a height and a total pixel-lookup
function; a pixel value is a packed natural number (the 3-channel layout is
irrelevant to every property below).  The PIL collaborator operations the
source calls (crop, new, paste, rotate) are modelled explicitly; file
persistence, decoding and directory handling are external collaborators and
are elided, so the slicers return their strip sequences directly.
-/

/-- A decoded pixel buffer: width, height and a pixel-lookup function.
Only the values at coordinates below the width and height are meaningful. -/
structure Img where
  width : Nat
  height : Nat
  px : Nat → Nat → Nat

/-- Modelled from the PIL collaborator used by the source:
`image.crop((left, top, right, bottom))` yields a buffer of size
`(right - left) x (bottom - top)` whose pixel `(x, y)` reads the source at
`(left + x, top + y)`; regions outside the source read as black (0). -/
def Img.crop (img : Img) (left top right bottom : Nat) : Img where
  width := right - left
  height := bottom - top
  px := fun x y =>
    if left + x < img.width ∧ top + y < img.height then img.px (left + x) (top + y) else 0

/-- Modelled from the PIL collaborator: `Image.new("RGB", (w, h))`, a fresh
buffer filled with black. -/
def Img.new (w h : Nat) : Img where
  width := w
  height := h
  px := fun _ _ => 0

/-- Modelled from the PIL collaborator: `base.paste(img, (x0, y0))` overwrites
the rectangle of `img`'s size at offset `(x0, y0)`; the base's dimensions are
unchanged. -/
def Img.paste (base img : Img) (x0 y0 : Nat) : Img where
  width := base.width
  height := base.height
  px := fun x y =>
    if x0 ≤ x ∧ x < x0 + img.width ∧ y0 ≤ y ∧ y < y0 + img.height then
      img.px (x - x0) (y - y0)
    else base.px x y

/-- Extensional equality of buffers: same dimensions and the same pixel value
at every in-range coordinate. -/
def Img.EqOn (a b : Img) : Prop :=
  a.width = b.width ∧ a.height = b.height ∧
    ∀ x, x < a.width → ∀ y, y < a.height → a.px x y = b.px x y

instance (a b : Img) : Decidable (a.EqOn b) := by
  unfold Img.EqOn
  infer_instance

/-- Band boundary `(top, bottom)` computed by `slice_image_horizontally`
(src/main.py lines 121-134) for the 0-based index `i`: nominal band height
`max 1 (height / num_slices)`, final band extended to the bottom edge. -/
def hBand (height num_slices i : Nat) : Nat × Nat :=
  (i * max 1 (height / num_slices),
   if i = num_slices - 1 then height else (i + 1) * max 1 (height / num_slices))

/-- Band boundary `(left, right)` computed by `slice_image_vertically`
(src/main.py lines 172-180) for the 0-based index `i`: nominal band width
`width / num_slices` with no forced minimum, final band extended to the right
edge. -/
def vBand (width num_slices i : Nat) : Nat × Nat :=
  (i * (width / num_slices),
   if i = num_slices - 1 then width else (i + 1) * (width / num_slices))

/-- `slice_image_horizontally` (src/main.py lines 105-158): cuts row bands in
increasing order; a band whose bottom does not exceed its top is skipped
(`continue`), every other band is cropped and kept.  Saving each strip to disk
is a collaborator effect and is elided. -/
def slice_image_horizontally (image : Img) (num_slices : Nat) : List Img :=
  (List.range num_slices).filterMap fun i =>
    if (hBand image.height num_slices i).2 ≤ (hBand image.height num_slices i).1 then none
    else some (image.crop 0 (hBand image.height num_slices i).1 image.width
      (hBand image.height num_slices i).2)

/-- `slice_image_vertically` (src/main.py lines 160-192): cuts column bands in
increasing order; every band is cropped and kept unconditionally. -/
def slice_image_vertically (image : Img) (num_slices : Nat) : List Img :=
  (List.range num_slices).map fun i =>
    image.crop (vBand image.width num_slices i).1 0 (vBand image.width num_slices i).2
      image.height

/-- Tail of `stitch_images_horizontally`: paste one buffer after the other
left to right, advancing the x offset by each pasted buffer's width
(src/main.py lines 77-80). -/
def pasteRow : Img → List Img → Nat → Img
  | base, [], _ => base
  | base, img :: rest, x0 => pasteRow (base.paste img x0 0) rest (x0 + img.width)

/-- `stitch_images_horizontally` (src/main.py lines 56-82): allocates a fresh
buffer of the summed width and the maximal height and pastes the inputs side
by side.  On an empty input Python's `max` raises, which the outer boundary
surfaces; this is modelled as `none`.  Loading each strip from its path is a
collaborator effect and is elided. -/
def stitch_images_horizontally (images : List Img) : Option Img :=
  if images.isEmpty then none
  else
    some (pasteRow
      (Img.new ((images.map Img.width).sum) ((images.map Img.height).foldl max 0)) images 0)

/-- `merge_images_horizontally` (src/main.py lines 7-29): fresh buffer of the
summed width and the maximum height, first image pasted at x = 0, second at
x = width1. -/
def merge_images_horizontally (image1 image2 : Img) : Img :=
  ((Img.new (image1.width + image2.width) (max image1.height image2.height)).paste
    image1 0 0).paste image2 image1.width 0

/-- The strip file numbers present in the output directory after a slicing
step that wrote `L` strips: the 1-based indices `1..L` (the slicers name the
strip of 0-based index `i` as `slice_{i+1:02d}.png`). -/
def sliceIndices (L : Nat) : List Nat := (List.range L).map (· + 1)

/-- `get_numbered_slices` (src/main.py lines 85-102): keep the file numbers of
the requested parity (`even = true` keeps numbers with `n % 2 == 0`) and sort
them numerically ascending.  A file name is represented by its parsed strip
number. -/
def get_numbered_slices (files : List Nat) (even : Bool) : List Nat :=
  List.insertionSort (fun a b => a ≤ b) (files.filter fun n => (n % 2 == 0) == even)

/-- Re-reading strips by their file numbers: strip number `i` is the slicer's
`i`-th produced strip (1-based). -/
def selectStrips (strips : List Img) (idxs : List Nat) : List Img :=
  idxs.filterMap fun i => strips[i - 1]?

/-- Modelled from the spec: the Rotator (spec 4.4) is the PIL `rotate`
collaborator, whose code is not part of src/.  Rotation is counter-clockwise
for positive degrees; with `expand` the output dimensions are swapped for odd
multiples of 90.  Only 90, 180 and 270 degrees are in the contract and only
90 and 270 are exercised by the pipeline. -/
def Img.rotate (img : Img) (degrees : Nat) : Img :=
  if degrees = 90 then
    { width := img.height, height := img.width,
      px := fun x y =>
        if x < img.height ∧ y < img.width then img.px (img.width - 1 - y) x else 0 }
  else if degrees = 180 then
    { width := img.width, height := img.height,
      px := fun x y =>
        if x < img.width ∧ y < img.height then
          img.px (img.width - 1 - x) (img.height - 1 - y)
        else 0 }
  else if degrees = 270 then
    { width := img.height, height := img.width,
      px := fun x y =>
        if x < img.height ∧ y < img.width then img.px y (img.height - 1 - x) else 0 }
  else img

/-- First pass of the pipeline (src/main.py lines 283-302): slice into column
bands, collect the odd- and even-numbered strips, stitch each group, merge the
odd composite with the even composite, rotate by 90 degrees with expand. -/
def pipeline_first_pass (image : Img) (n : Nat) : Option Img :=
  let strips := slice_image_vertically image n
  let oddS := selectStrips strips (get_numbered_slices (sliceIndices strips.length) false)
  let evenS := selectStrips strips (get_numbered_slices (sliceIndices strips.length) true)
  match stitch_images_horizontally oddS, stitch_images_horizontally evenS with
  | some oddC, some evenC => some ((merge_images_horizontally oddC evenC).rotate 90)
  | _, _ => none

/-- A synthetic 4-wide, 8-tall buffer with distinct pixel values, used by the
end-to-end scenario. -/
def img4x8 : Img := ⟨4, 8, fun x y => 4 * y + x⟩

@[simp] lemma Img.new_width (w h : Nat) : (Img.new w h).width = w := rfl

@[simp] lemma Img.new_height (w h : Nat) : (Img.new w h).height = h := rfl

@[simp] lemma Img.paste_width (base img : Img) (x0 y0 : Nat) :
    (base.paste img x0 y0).width = base.width := rfl

@[simp] lemma Img.paste_height (base img : Img) (x0 y0 : Nat) :
    (base.paste img x0 y0).height = base.height := rfl

@[simp] lemma Img.crop_width (img : Img) (l t r b : Nat) :
    (img.crop l t r b).width = r - l := rfl

@[simp] lemma Img.crop_height (img : Img) (l t r b : Nat) :
    (img.crop l t r b).height = b - t := rfl

@[simp] lemma Img.new_px (w h x y : Nat) : (Img.new w h).px x y = 0 := rfl

@[simp] lemma Img.paste_px (base img : Img) (x0 y0 x y : Nat) :
    (base.paste img x0 y0).px x y =
      if x0 ≤ x ∧ x < x0 + img.width ∧ y0 ≤ y ∧ y < y0 + img.height then
        img.px (x - x0) (y - y0)
      else base.px x y := rfl

@[simp] lemma Img.crop_px (img : Img) (l t r b x y : Nat) :
    (img.crop l t r b).px x y =
      if l + x < img.width ∧ t + y < img.height then img.px (l + x) (t + y) else 0 := rfl

/-- C1: for every pixel buffer and `num_slices ≥ 1`, strip `i` (1-based,
`1 ≤ i ≤ num_slices`) is computed with boundary `[(i-1)*base, i*base)` and the
final strip's far boundary forced to the buffer edge, where the row-band base
is `max 1 (height / num_slices)` and the column-band base is
`width / num_slices` with no forced minimum: the two axes keep distinct
remainder policies. -/
theorem c1_strip_boundaries (img : Img) (N i : Nat) (h1 : 1 ≤ i) (h2 : i ≤ N) :
    hBand img.height N (i - 1) =
      ((i - 1) * max 1 (img.height / N),
        if i = N then img.height else i * max 1 (img.height / N)) ∧
    vBand img.width N (i - 1) =
      ((i - 1) * (img.width / N),
        if i = N then img.width else i * (img.width / N)) := by
  have hi : i - 1 + 1 = i := Nat.succ_pred_eq_of_pos h1
  have hiff : i - 1 = N - 1 ↔ i = N := by omega
  constructor
  · unfold hBand
    rw [hi]
    simp only [hiff]
  · unfold vBand
    rw [hi]
    simp only [hiff]

/-- C1, witnessed at a 7-wide, 5-tall buffer with 3 slices, final strip. -/
theorem c1_strip_boundaries_witness :
    (1 ≤ 3 ∧ 3 ≤ 3) ∧
    (hBand (Img.new 7 5).height 3 (3 - 1) =
      ((3 - 1) * max 1 ((Img.new 7 5).height / 3),
        if 3 = 3 then (Img.new 7 5).height else 3 * max 1 ((Img.new 7 5).height / 3)) ∧
    vBand (Img.new 7 5).width 3 (3 - 1) =
      ((3 - 1) * ((Img.new 7 5).width / 3),
        if 3 = 3 then (Img.new 7 5).width else 3 * ((Img.new 7 5).width / 3))) :=
  ⟨⟨by decide, by decide⟩, c1_strip_boundaries (Img.new 7 5) 3 3 (by decide) (by decide)⟩

lemma filterMap_eq_map_of_forall (l : List α) (f : α → Option β) (g : α → β)
    (h : ∀ a ∈ l, f a = some (g a)) : l.filterMap f = l.map g := by
  induction l with
  | nil => rfl
  | cons a l ih =>
    rw [List.filterMap_cons, h a (List.mem_cons_self a l), List.map_cons,
      ih fun b hb => h b (List.mem_cons_of_mem a hb)]

lemma sub_one_mul_div_le (a n : Nat) : (n - 1) * (a / n) ≤ a := by
  have key : (n - 1) * (a / n) = n * (a / n) - a / n := Nat.sub_one_mul n (a / n)
  have h3 : n * (a / n) ≤ a := by
    rw [Nat.mul_comm]
    exact Nat.div_mul_le_self a n
  generalize a / n = q at key h3 ⊢
  omega

lemma sub_one_mul_div_lt {a n : Nat} (h1 : 1 ≤ n) (h2 : n ≤ a) : (n - 1) * (a / n) < a := by
  have hq : 1 ≤ a / n := (Nat.one_le_div_iff (by omega)).mpr h2
  have key : (n - 1) * (a / n) = n * (a / n) - a / n := Nat.sub_one_mul n (a / n)
  have h3 : n * (a / n) ≤ a := by
    rw [Nat.mul_comm]
    exact Nat.div_mul_le_self a n
  generalize a / n = q at hq key h3 ⊢
  omega

lemma hBand_of_lt {H N i : Nat} (h : i < N - 1) :
    hBand H N i = (i * max 1 (H / N), (i + 1) * max 1 (H / N)) := by
  unfold hBand
  rw [if_neg (by omega)]

lemma hBand_last {H N M : Nat} (h : M = N - 1) : hBand H N M = (M * max 1 (H / N), H) := by
  unfold hBand
  rw [if_pos h]

lemma vBand_of_lt {W N i : Nat} (h : i < N - 1) :
    vBand W N i = (i * (W / N), (i + 1) * (W / N)) := by
  unfold vBand
  rw [if_neg (by omega)]

lemma vBand_last {W N M : Nat} (h : M = N - 1) : vBand W N M = (M * (W / N), W) := by
  unfold vBand
  rw [if_pos h]

lemma slice_h_eq (img : Img) (N : Nat) (hN : 1 ≤ N) :
    slice_image_horizontally img N =
      ((List.range (N - 1)).map fun i =>
        img.crop 0 (i * max 1 (img.height / N)) img.width
          ((i + 1) * max 1 (img.height / N))) ++
      (if img.height ≤ (N - 1) * max 1 (img.height / N) then []
       else [img.crop 0 ((N - 1) * max 1 (img.height / N)) img.width img.height]) := by
  obtain ⟨M, rfl⟩ : ∃ M, N = M + 1 := ⟨N - 1, by omega⟩
  rw [Nat.add_sub_cancel]
  unfold slice_image_horizontally
  rw [List.range_succ, List.filterMap_append]
  have hb : 1 ≤ max 1 (img.height / (M + 1)) := le_max_left 1 _
  congr 1
  · apply filterMap_eq_map_of_forall
    intro i hi
    have hi' : i < M := List.mem_range.mp hi
    have hband := hBand_of_lt (H := img.height) (N := M + 1) (i := i) (by omega)
    rw [hband, if_neg]
    simp only [not_le, Nat.succ_mul]
    omega
  · have hband := hBand_last (H := img.height) (N := M + 1) (M := M) (by omega)
    by_cases hc : img.height ≤ M * max 1 (img.height / (M + 1))
    · rw [if_pos hc, List.filterMap_cons, hband, if_pos hc, List.filterMap_nil]
    · rw [if_neg hc, List.filterMap_cons, hband, if_neg hc, List.filterMap_nil]

lemma vslice_length (img : Img) (N : Nat) : (slice_image_vertically img N).length = N := by
  unfold slice_image_vertically
  rw [List.length_map, List.length_range]

lemma vslice_get {img : Img} {N i : Nat} (h : i < N) :
    (slice_image_vertically img N)[i]? =
      some (img.crop (vBand img.width N i).1 0 (vBand img.width N i).2 img.height) := by
  unfold slice_image_vertically
  rw [List.getElem?_map, List.getElem?_range h]
  rfl

/-- C3: for every buffer and `N ≥ 1`, row-band slicing returns at most `N`
strips and exactly `N` whenever `height / N ≥ 1`; column-band slicing always
returns exactly `N` strips, each of width `width / N` except the last, which
runs to the buffer's far edge to absorb the rounding remainder. -/
theorem c3_strip_counts (img : Img) (N : Nat) (hN : 1 ≤ N) :
    (slice_image_horizontally img N).length ≤ N ∧
    (1 ≤ img.height / N → (slice_image_horizontally img N).length = N) ∧
    (slice_image_vertically img N).length = N ∧
    (∀ i, i < N - 1 →
      ((slice_image_vertically img N)[i]?).map Img.width = some (img.width / N)) ∧
    (slice_image_vertically img N)[N - 1]? =
      some (img.crop ((N - 1) * (img.width / N)) 0 img.width img.height) := by
  refine ⟨?_, ?_, vslice_length img N, ?_, ?_⟩
  · unfold slice_image_horizontally
    exact le_trans (List.length_filterMap_le _ _) (le_of_eq (List.length_range N))
  · intro hq
    have hle : N ≤ img.height := (Nat.one_le_div_iff (by omega)).mp hq
    have hmax : max 1 (img.height / N) = img.height / N := max_eq_right hq
    have hlt : (N - 1) * (img.height / N) < img.height := sub_one_mul_div_lt hN hle
    rw [slice_h_eq img N hN, hmax, if_neg (by omega), List.length_append,
      List.length_map, List.length_range]
    simp only [List.length_cons, List.length_nil]
    omega
  · intro i hi
    rw [vslice_get (by omega), vBand_of_lt hi]
    show some (((i + 1) * (img.width / N)) - i * (img.width / N)) = _
    rw [Nat.succ_mul, Nat.add_sub_cancel_left]
  · rw [vslice_get (by omega), vBand_last (by omega : N - 1 = N - 1)]

/-- C3, witnessed at a 7-wide, 5-tall buffer with 3 slices. -/
theorem c3_strip_counts_witness :
    1 ≤ 3 ∧
    ((slice_image_horizontally (Img.new 7 5) 3).length ≤ 3 ∧
    (1 ≤ (Img.new 7 5).height / 3 → (slice_image_horizontally (Img.new 7 5) 3).length = 3) ∧
    (slice_image_vertically (Img.new 7 5) 3).length = 3 ∧
    (∀ i, i < 3 - 1 →
      ((slice_image_vertically (Img.new 7 5) 3)[i]?).map Img.width =
        some ((Img.new 7 5).width / 3)) ∧
    (slice_image_vertically (Img.new 7 5) 3)[3 - 1]? =
      some ((Img.new 7 5).crop ((3 - 1) * ((Img.new 7 5).width / 3)) 0
        (Img.new 7 5).width (Img.new 7 5).height)) :=
  ⟨by decide, c3_strip_counts (Img.new 7 5) 3 (by decide)⟩

/-- C10: for every buffer of positive height and `N ≥ 1`, row-band slicing
returns a non-empty sequence; every non-final band is produced as a crop (even
when it lies partly or wholly past the bottom edge) and only the final band
can be skipped, exactly when `height ≤ (N - 1) * max 1 (height / N)`. -/
theorem c10_row_band_production (img : Img) (N : Nat) (hN : 1 ≤ N)
    (hH : 1 ≤ img.height) :
    slice_image_horizontally img N ≠ [] ∧
    (∀ i, i < N - 1 →
      (slice_image_horizontally img N)[i]? =
        some (img.crop 0 (i * max 1 (img.height / N)) img.width
          ((i + 1) * max 1 (img.height / N)))) ∧
    (slice_image_horizontally img N).length =
      (if img.height ≤ (N - 1) * max 1 (img.height / N) then N - 1 else N) := by
  rw [slice_h_eq img N hN]
  refine ⟨?_, ?_, ?_⟩
  · apply List.ne_nil_of_length_pos
    rw [List.length_append, List.length_map, List.length_range]
    by_cases hc : img.height ≤ (N - 1) * max 1 (img.height / N)
    · rcases Nat.lt_or_ge N 2 with h2 | h2
      · obtain rfl : N = 1 := by omega
        simp at hc
        omega
      · omega
    · rw [if_neg hc]
      simp only [List.length_cons, List.length_nil]
      omega
  · intro i hi
    rw [List.getElem?_append]
    rw [if_pos (by rw [List.length_map, List.length_range]; omega)]
    rw [List.getElem?_map, List.getElem?_range hi]
    rfl
  · rw [List.length_append, List.length_map, List.length_range]
    by_cases hc : img.height ≤ (N - 1) * max 1 (img.height / N)
    · rw [if_pos hc, if_pos hc]
      simp only [List.length_nil]
      omega
    · rw [if_neg hc, if_neg hc]
      simp only [List.length_cons, List.length_nil]
      omega

/-- C10, witnessed at a 3-wide, 2-tall buffer with 5 slices (the final band
is skipped: 2 ≤ 4 * 1) and checked to give 4 strips. -/
theorem c10_row_band_production_witness :
    (1 ≤ 5 ∧ 1 ≤ (Img.new 3 2).height) ∧
    (slice_image_horizontally (Img.new 3 2) 5 ≠ [] ∧
    (∀ i, i < 5 - 1 →
      (slice_image_horizontally (Img.new 3 2) 5)[i]? =
        some ((Img.new 3 2).crop 0 (i * max 1 ((Img.new 3 2).height / 5))
          (Img.new 3 2).width ((i + 1) * max 1 ((Img.new 3 2).height / 5)))) ∧
    (slice_image_horizontally (Img.new 3 2) 5).length =
      (if (Img.new 3 2).height ≤ (5 - 1) * max 1 ((Img.new 3 2).height / 5)
       then 5 - 1 else 5)) :=
  ⟨⟨by decide, by decide⟩, c10_row_band_production (Img.new 3 2) 5 (by decide) (by decide)⟩

/-- C2 counterexample: a 1-wide, 1-tall buffer sliced into 2 column bands
keeps its computed zero-width strip in the returned sequence; degenerate
strips are not dropped by the slicing step the pipeline runs. -/
theorem c2_counterexample_strip_kept :
    ¬ ∀ s ∈ slice_image_vertically ⟨1, 1, fun _ _ => 7⟩ 2, 0 < s.width := by
  decide

/-- C2 as amended: when the buffer's sliced dimension is smaller than `N`, the
pipeline's column-band slicing step still returns exactly `N` strips, keeping
every degenerate (zero-width) strip rather than dropping it; the final strip
spans the whole buffer, and no validation of `N` against the dimension is
performed (the slicer returns normally). -/
theorem c2_amended_degenerate_kept (img : Img) (N : Nat) (hN : 1 ≤ N)
    (hW : img.width < N) :
    (slice_image_vertically img N).length = N ∧
    (∀ i, i < N - 1 → ((slice_image_vertically img N)[i]?).map Img.width = some 0) ∧
    (slice_image_vertically img N)[N - 1]? =
      some (img.crop 0 0 img.width img.height) := by
  have hq : img.width / N = 0 := Nat.div_eq_of_lt hW
  refine ⟨vslice_length img N, ?_, ?_⟩
  · intro i hi
    rw [vslice_get (by omega), vBand_of_lt hi, hq]
    show some (((i + 1) * 0) - i * 0) = _
    simp
  · rw [vslice_get (by omega : N - 1 < N), vBand_last (by omega : N - 1 = N - 1), hq]
    rw [Nat.mul_zero]

/-- C2 amended, witnessed at a 1-wide, 1-tall buffer with 2 slices. -/
theorem c2_amended_witness :
    (1 ≤ 2 ∧ (Img.new 1 1).width < 2) ∧
    ((slice_image_vertically (Img.new 1 1) 2).length = 2 ∧
    (∀ i, i < 2 - 1 →
      ((slice_image_vertically (Img.new 1 1) 2)[i]?).map Img.width = some 0) ∧
    (slice_image_vertically (Img.new 1 1) 2)[2 - 1]? =
      some ((Img.new 1 1).crop 0 0 (Img.new 1 1).width (Img.new 1 1).height)) :=
  ⟨⟨by decide, by decide⟩, c2_amended_degenerate_kept (Img.new 1 1) 2 (by decide) (by decide)⟩

lemma pasteRow_width (l : List Img) : ∀ (base : Img) (x0 : Nat),
    (pasteRow base l x0).width = base.width := by
  induction l with
  | nil => intro base x0; rfl
  | cons a l ih => intro base x0; exact ih (base.paste a x0 0) (x0 + a.width)

lemma pasteRow_height (l : List Img) : ∀ (base : Img) (x0 : Nat),
    (pasteRow base l x0).height = base.height := by
  induction l with
  | nil => intro base x0; rfl
  | cons a l ih => intro base x0; exact ih (base.paste a x0 0) (x0 + a.width)

lemma pasteRow_px_of_lt (l : List Img) : ∀ (base : Img) (x0 x y : Nat), x < x0 →
    (pasteRow base l x0).px x y = base.px x y := by
  induction l with
  | nil => intro base x0 x y _; rfl
  | cons a l ih =>
    intro base x0 x y hx
    rw [pasteRow, ih (base.paste a x0 0) (x0 + a.width) x y (by omega)]
    unfold Img.paste
    simp only
    rw [if_neg (by omega)]

lemma init_le_foldl_max (l : List Nat) : ∀ (a : Nat), a ≤ l.foldl max a := by
  induction l with
  | nil => intro a; exact le_refl a
  | cons b l ih => intro a; exact le_trans (le_max_left a b) (ih (max a b))

lemma le_foldl_max (l : List Nat) : ∀ (a : Nat), ∀ x ∈ l, x ≤ l.foldl max a := by
  induction l with
  | nil => intro a x hx; cases hx
  | cons b l ih =>
    intro a x hx
    rcases List.mem_cons.mp hx with rfl | hx
    · exact le_trans (le_max_right a x) (init_le_foldl_max l (max a x))
    · exact ih (max a b) x hx

lemma foldl_max_attained (l : List Nat) : ∀ (a : Nat), l.foldl max a = a ∨ l.foldl max a ∈ l := by
  induction l with
  | nil => intro a; exact Or.inl rfl
  | cons b l ih =>
    intro a
    rcases ih (max a b) with h | h
    · rw [List.foldl_cons, h]
      rcases Nat.le_total a b with hab | hab
      · exact Or.inr (by rw [max_eq_right hab]; exact List.mem_cons_self b l)
      · exact Or.inl (max_eq_left hab)
    · exact Or.inr (List.mem_cons_of_mem b h)

/-- C4: for every non-empty list of buffers, the horizontal stitch has width
equal to the sum of the inputs' widths and height equal to the maximum of the
inputs' heights (an attained upper bound, with no equal-height requirement);
the two-buffer horizontal merge obeys the same law. -/
theorem c4_join_extent_law (images : List Img) (h : images ≠ []) (a b : Img) :
    (∃ out, stitch_images_horizontally images = some out ∧
      out.width = (images.map Img.width).sum ∧
      (∀ i ∈ images, i.height ≤ out.height) ∧
      (∃ i ∈ images, out.height = i.height)) ∧
    (merge_images_horizontally a b).width = a.width + b.width ∧
    (merge_images_horizontally a b).height = max a.height b.height := by
  refine ⟨?_, rfl, rfl⟩
  unfold stitch_images_horizontally
  rw [if_neg (by simpa using h)]
  refine ⟨_, rfl, ?_, ?_, ?_⟩
  · rw [pasteRow_width, Img.new_width]
  · intro i hi
    rw [pasteRow_height, Img.new_height]
    exact le_foldl_max (images.map Img.height) 0 i.height (List.mem_map_of_mem Img.height hi)
  · rw [pasteRow_height, Img.new_height]
    rcases foldl_max_attained (images.map Img.height) 0 with h0 | hmem
    · obtain ⟨i, rest, rfl⟩ : ∃ i rest, images = i :: rest := by
        cases images with
        | nil => exact absurd rfl h
        | cons i rest => exact ⟨i, rest, rfl⟩
      refine ⟨i, List.mem_cons_self i rest, ?_⟩
      have hle := le_foldl_max ((i :: rest).map Img.height) 0 i.height
        (List.mem_map_of_mem Img.height (List.mem_cons_self i rest))
      omega
    · rcases List.mem_map.mp hmem with ⟨i, hi, hih⟩
      exact ⟨i, hi, hih.symm⟩

/-- C4, witnessed at two strips of unequal heights and a concrete merge. -/
theorem c4_join_extent_law_witness :
    ([Img.new 2 3, Img.new 1 5] ≠ []) ∧
    ((∃ out, stitch_images_horizontally [Img.new 2 3, Img.new 1 5] = some out ∧
      out.width = ([Img.new 2 3, Img.new 1 5].map Img.width).sum ∧
      (∀ i ∈ [Img.new 2 3, Img.new 1 5], i.height ≤ out.height) ∧
      (∃ i ∈ [Img.new 2 3, Img.new 1 5], out.height = i.height)) ∧
    (merge_images_horizontally (Img.new 4 1) (Img.new 2 6)).width =
      (Img.new 4 1).width + (Img.new 2 6).width ∧
    (merge_images_horizontally (Img.new 4 1) (Img.new 2 6)).height =
      max (Img.new 4 1).height (Img.new 2 6).height) :=
  ⟨List.cons_ne_nil _ _,
    c4_join_extent_law [Img.new 2 3, Img.new 1 5] (List.cons_ne_nil _ _)
      (Img.new 4 1) (Img.new 2 6)⟩

/-- C8: the joiner maps the empty strip sequence to an error (no buffer is
produced, the pipeline's outer boundary receives the failure), while a
single-element sequence yields a fresh buffer of the same dimensions whose
content equals that element's content. -/
theorem c8_joiner_degenerate_inputs :
    stitch_images_horizontally ([] : List Img) = none ∧
    ∀ img : Img, ∃ out, stitch_images_horizontally [img] = some out ∧
      out.width = img.width ∧ out.height = img.height ∧ out.EqOn img := by
  refine ⟨rfl, ?_⟩
  intro img
  unfold stitch_images_horizontally
  rw [if_neg (by simp)]
  have hsum : ([img].map Img.width).sum = img.width := by simp
  have hfold : ([img].map Img.height).foldl max 0 = img.height := by simp
  refine ⟨_, rfl, ?_, ?_, ?_, ?_, ?_⟩
  · rw [pasteRow_width, Img.new_width, hsum]
  · rw [pasteRow_height, Img.new_height, hfold]
  · rw [pasteRow_width, Img.new_width, hsum]
  · rw [pasteRow_height, Img.new_height, hfold]
  · intro x hx y hy
    rw [pasteRow_width, Img.new_width, hsum] at hx
    rw [pasteRow_height, Img.new_height, hfold] at hy
    show ((Img.new (([img].map Img.width).sum)
      (([img].map Img.height).foldl max 0)).paste img 0 0).px x y = img.px x y
    unfold Img.paste
    simp only
    rw [if_pos ⟨Nat.zero_le x, by omega, Nat.zero_le y, by omega⟩]
    simp

/-- C9: rotating a buffer by 90 degrees with expand and then by 270 degrees
with expand restores the original width and height, and (with the
counter-clockwise direction convention applied in both rotations) the original
pixel content. -/
theorem c9_rotation_round_trip (img : Img) :
    ((img.rotate 90).rotate 270).width = img.width ∧
    ((img.rotate 90).rotate 270).height = img.height ∧
    ((img.rotate 90).rotate 270).EqOn img := by
  refine ⟨rfl, rfl, rfl, rfl, ?_⟩
  intro x hx y hy
  have hx' : x < img.width := hx
  have hy' : y < img.height := hy
  show (if x < img.width ∧ y < img.height then
      (img.rotate 90).px y (img.width - 1 - x) else 0) = img.px x y
  rw [if_pos ⟨hx', hy'⟩]
  show (if y < img.height ∧ img.width - 1 - x < img.width then
      img.px (img.width - 1 - (img.width - 1 - x)) y else 0) = img.px x y
  rw [if_pos ⟨hy', by omega⟩, Nat.sub_sub_self (by omega : x ≤ img.width - 1)]

lemma sum_map_eq (l : List α) (f : α → Nat) (c : Nat) (h : ∀ a ∈ l, f a = c) :
    (l.map f).sum = l.length * c := by
  induction l with
  | nil => simp
  | cons a l ih =>
    rw [List.map_cons, List.sum_cons, h a (List.mem_cons_self a l),
      ih fun b hb => h b (List.mem_cons_of_mem a hb), List.length_cons]
    ring

lemma foldl_max_const (l : List Nat) (c : Nat) (h : ∀ x ∈ l, x = c) : l.foldl max c = c := by
  induction l with
  | nil => rfl
  | cons a l ih =>
    rw [List.foldl_cons, h a (List.mem_cons_self a l), max_self]
    exact ih fun b hb => h b (List.mem_cons_of_mem a hb)

lemma foldl_max_of_const (l : List Nat) (c : Nat) (h : ∀ x ∈ l, x = c) (hl : l ≠ []) :
    l.foldl max 0 = c := by
  cases l with
  | nil => exact absurd rfl hl
  | cons a l =>
    rw [List.foldl_cons, Nat.zero_max, h a (List.mem_cons_self a l)]
    exact foldl_max_const l c fun b hb => h b (List.mem_cons_of_mem a hb)

lemma vslice_sum_width (img : Img) (N : Nat) (hN : 1 ≤ N) :
    ((slice_image_vertically img N).map Img.width).sum = img.width := by
  obtain ⟨M, rfl⟩ : ∃ M, N = M + 1 := ⟨N - 1, by omega⟩
  have hMq : M * (img.width / (M + 1)) ≤ img.width := by
    have := sub_one_mul_div_le img.width (M + 1)
    rw [Nat.add_sub_cancel] at this
    exact this
  unfold slice_image_vertically
  rw [List.map_map, List.range_succ, List.map_append, List.sum_append]
  have hfirst : ∀ i ∈ List.range M,
      (Img.width ∘ fun i =>
        img.crop (vBand img.width (M + 1) i).1 0 (vBand img.width (M + 1) i).2
          img.height) i = img.width / (M + 1) := by
    intro i hi
    have hi' : i < M := List.mem_range.mp hi
    show (img.crop (vBand img.width (M + 1) i).1 0 (vBand img.width (M + 1) i).2
      img.height).width = img.width / (M + 1)
    rw [vBand_of_lt (by omega), Img.crop_width]
    show (i + 1) * (img.width / (M + 1)) - i * (img.width / (M + 1)) = _
    rw [Nat.succ_mul, Nat.add_sub_cancel_left]
  rw [sum_map_eq (List.range M) _ (img.width / (M + 1)) hfirst, List.length_range]
  have hlast : (Img.width ∘ fun i =>
      img.crop (vBand img.width (M + 1) i).1 0 (vBand img.width (M + 1) i).2
        img.height) M = img.width - M * (img.width / (M + 1)) := by
    show (img.crop (vBand img.width (M + 1) M).1 0 (vBand img.width (M + 1) M).2
      img.height).width = _
    rw [vBand_last (by omega : M = M + 1 - 1), Img.crop_width]
  rw [List.map_cons, List.map_nil, List.sum_cons, List.sum_nil, hlast]
  omega

lemma vslice_fold_height (img : Img) (N : Nat) (hN : 1 ≤ N) :
    ((slice_image_vertically img N).map Img.height).foldl max 0 = img.height := by
  apply foldl_max_of_const
  · intro x hx
    rcases List.mem_map.mp hx with ⟨s, hs, rfl⟩
    unfold slice_image_vertically at hs
    rcases List.mem_map.mp hs with ⟨i, _, rfl⟩
    rw [Img.crop_height, Nat.sub_zero]
  · intro hc
    have h1 := List.length_map (slice_image_vertically img N) Img.height
    rw [hc, vslice_length] at h1
    simp at h1
    omega

lemma vslice_paste_aux (img : Img) (N : Nat) :
    ∀ (k j : Nat), j + k = N → 1 ≤ k → ∀ (base : Img) (x y : Nat),
      j * (img.width / N) ≤ x → x < img.width → y < img.height →
      (pasteRow base ((List.range' j k).map fun i =>
          img.crop (vBand img.width N i).1 0 (vBand img.width N i).2 img.height)
        (j * (img.width / N))).px x y = img.px x y := by
  intro k
  induction k with
  | zero => intro j hjk hk; exact absurd hk (by omega)
  | succ k ih =>
    intro j hjk hk base x y hx0 hxW hyH
    rw [List.range'_succ, List.map_cons]
    simp only [pasteRow]
    rcases Nat.eq_zero_or_pos k with hk0 | hk1
    · subst hk0
      have hvb := vBand_last (W := img.width) (N := N) (M := j) (by omega)
      have hstrip : img.crop (vBand img.width N j).1 0 (vBand img.width N j).2
          img.height = img.crop (j * (img.width / N)) 0 img.width img.height := by
        rw [hvb]
      rw [hstrip]
      simp only [List.range'_zero, List.map_nil, pasteRow, Img.paste_px, Img.crop_width,
        Img.crop_height, Img.crop_px]
      have e1 : j * (img.width / N) + (x - j * (img.width / N)) = x :=
        Nat.add_sub_cancel' hx0
      have hA : j * (img.width / N) + (img.width - j * (img.width / N)) = img.width :=
        Nat.add_sub_cancel' (le_trans hx0 (le_of_lt hxW))
      rw [if_pos ⟨hx0, by rw [hA]; exact hxW, Nat.zero_le y, by simpa using hyH⟩]
      rw [if_pos ⟨by rw [e1]; exact hxW, by simpa using hyH⟩]
      rw [e1]
      simp
    · have hjN : j < N - 1 := by omega
      have hvb := vBand_of_lt (W := img.width) (N := N) hjN
      have hstrip : img.crop (vBand img.width N j).1 0 (vBand img.width N j).2
          img.height =
          img.crop (j * (img.width / N)) 0 ((j + 1) * (img.width / N)) img.height := by
        rw [hvb]
      rw [hstrip]
      have hsm : (j + 1) * (img.width / N) = j * (img.width / N) + img.width / N :=
        Nat.succ_mul j (img.width / N)
      have hq1 : (j + 1) * (img.width / N) - j * (img.width / N) = img.width / N := by
        rw [hsm, Nat.add_sub_cancel_left]
      have hoff : j * (img.width / N) +
          (img.crop (j * (img.width / N)) 0 ((j + 1) * (img.width / N))
            img.height).width = (j + 1) * (img.width / N) := by
        rw [Img.crop_width, hq1, hsm]
      rw [hoff]
      by_cases hx : x < (j + 1) * (img.width / N)
      · rw [pasteRow_px_of_lt _ _ _ _ _ hx]
        have e1 : j * (img.width / N) + (x - j * (img.width / N)) = x :=
          Nat.add_sub_cancel' hx0
        simp only [Img.paste_px, Img.crop_width, Img.crop_height, Img.crop_px]
        rw [hq1]
        rw [if_pos ⟨hx0, by rw [← hsm]; exact hx, Nat.zero_le y, by simpa using hyH⟩]
        rw [if_pos ⟨by rw [e1]; exact hxW, by simpa using hyH⟩]
        rw [e1]
        simp
      · exact ih (j + 1) (by omega) hk1
          (base.paste (img.crop (j * (img.width / N)) 0
            ((j + 1) * (img.width / N)) img.height) (j * (img.width / N)) 0)
          x y (Nat.le_of_not_lt hx) hxW hyH

/-- C5: for every buffer and `N ≥ 1`, stitching all strips of a single
column-band slice in ascending index order reproduces the original buffer's
width and height exactly and its pixel content pixel for pixel. -/
theorem c5_pixel_conservation (img : Img) (N : Nat) (hN : 1 ≤ N) :
    ∃ out, stitch_images_horizontally (slice_image_vertically img N) = some out ∧
      out.width = img.width ∧ out.height = img.height ∧ out.EqOn img := by
  have hne : ¬(slice_image_vertically img N).isEmpty = true := by
    rw [List.isEmpty_iff]
    intro hc
    have hlen := vslice_length img N
    rw [hc] at hlen
    simp at hlen
    omega
  have hsum := vslice_sum_width img N hN
  have hfold := vslice_fold_height img N hN
  unfold stitch_images_horizontally
  rw [if_neg hne]
  refine ⟨_, rfl, ?_, ?_, ?_, ?_, ?_⟩
  · rw [pasteRow_width, Img.new_width, hsum]
  · rw [pasteRow_height, Img.new_height, hfold]
  · rw [pasteRow_width, Img.new_width, hsum]
  · rw [pasteRow_height, Img.new_height, hfold]
  · intro x hx y hy
    rw [pasteRow_width, Img.new_width, hsum] at hx
    rw [pasteRow_height, Img.new_height, hfold] at hy
    have haux := vslice_paste_aux img N N 0 (by omega) hN
      (Img.new ((slice_image_vertically img N).map Img.width).sum
        (((slice_image_vertically img N).map Img.height).foldl max 0)) x y
      (by omega) hx hy
    rw [Nat.zero_mul] at haux
    show (pasteRow _ (slice_image_vertically img N) 0).px x y = img.px x y
    have hlist : slice_image_vertically img N =
        (List.range' 0 N).map fun i =>
          img.crop (vBand img.width N i).1 0 (vBand img.width N i).2 img.height := by
      unfold slice_image_vertically
      rw [List.range_eq_range']
    rw [hlist] at haux ⊢
    exact haux

/-- C5, witnessed at a 3-wide, 2-tall buffer with distinct pixels and 2
column bands (widths 1 and 2). -/
theorem c5_pixel_conservation_witness :
    1 ≤ 2 ∧
    ∃ out, stitch_images_horizontally
        (slice_image_vertically ⟨3, 2, fun x y => 10 * x + y⟩ 2) = some out ∧
      out.width = (⟨3, 2, fun x y => 10 * x + y⟩ : Img).width ∧
      out.height = (⟨3, 2, fun x y => 10 * x + y⟩ : Img).height ∧
      out.EqOn ⟨3, 2, fun x y => 10 * x + y⟩ :=
  ⟨by decide, c5_pixel_conservation ⟨3, 2, fun x y => 10 * x + y⟩ 2 (by decide)⟩

lemma sliceIndices_sorted_lt (L : Nat) : (sliceIndices L).Pairwise (fun a b => a < b) := by
  unfold sliceIndices
  exact (List.pairwise_lt_range L).map (· + 1) fun a b hab => Nat.add_lt_add_right hab 1

lemma get_numbered_eq_filter (files : List Nat) (L : Nat) (ev : Bool)
    (hp : files.Perm (sliceIndices L)) :
    get_numbered_slices files ev =
      (sliceIndices L).filter fun n => (n % 2 == 0) == ev := by
  apply List.eq_of_perm_of_sorted (r := fun a b : Nat => a ≤ b)
  · exact (List.perm_insertionSort _ _).trans (hp.filter _)
  · exact List.sorted_insertionSort _ _
  · exact ((sliceIndices_sorted_lt L).filter _).imp le_of_lt

/-- C6: for every directory listing holding the strip numbers `1..L` in any
order, the parity split returns an odd group and an even group whose lengths
sum to `L`, with every index in exactly one group, no index duplicated or
dropped (the concatenation is a permutation of `1..L`), and each group equal
to the order-preserving filter of the ascending index sequence. -/
theorem c6_parity_partition (files : List Nat) (L : Nat)
    (hp : files.Perm (sliceIndices L)) :
    (get_numbered_slices files false).length + (get_numbered_slices files true).length =
      L ∧
    (∀ i ∈ sliceIndices L,
      (i ∈ get_numbered_slices files false ↔ i ∉ get_numbered_slices files true)) ∧
    (get_numbered_slices files false ++ get_numbered_slices files true).Perm
      (sliceIndices L) ∧
    get_numbered_slices files false = (sliceIndices L).filter (fun n => n % 2 == 1) ∧
    get_numbered_slices files true = (sliceIndices L).filter (fun n => n % 2 == 0) := by
  have hodd : get_numbered_slices files false =
      (sliceIndices L).filter fun n => n % 2 == 1 := by
    rw [get_numbered_eq_filter files L false hp]
    apply List.filter_congr
    intro n _
    rcases Nat.mod_two_eq_zero_or_one n with h | h <;> rw [h] <;> rfl
  have heven : get_numbered_slices files true =
      (sliceIndices L).filter fun n => n % 2 == 0 := by
    rw [get_numbered_eq_filter files L true hp]
    apply List.filter_congr
    intro n _
    rcases Nat.mod_two_eq_zero_or_one n with h | h <;> rw [h] <;> rfl
  have hnot : ((sliceIndices L).filter fun x => !(x % 2 == 1)) =
      (sliceIndices L).filter fun n => n % 2 == 0 := by
    apply List.filter_congr
    intro n _
    rcases Nat.mod_two_eq_zero_or_one n with h | h <;> rw [h] <;> rfl
  have hperm := List.filter_append_perm (fun n => n % 2 == 1) (sliceIndices L)
  rw [hnot] at hperm
  have hL : (sliceIndices L).length = L := by
    unfold sliceIndices
    rw [List.length_map, List.length_range]
  refine ⟨?_, ?_, ?_, hodd, heven⟩
  · rw [hodd, heven]
    have hlen := hperm.length_eq
    rw [List.length_append] at hlen
    rw [hlen, hL]
  · intro i hi
    rw [hodd, heven]
    rcases Nat.mod_two_eq_zero_or_one i with h | h <;>
      simp [List.mem_filter, hi, h]
  · rw [hodd, heven]
    exact hperm

/-- C6, witnessed at the shuffled listing `[3, 1, 4, 2]` of four strips. -/
theorem c6_parity_partition_witness :
    ([3, 1, 4, 2] : List Nat).Perm (sliceIndices 4) ∧
    ((get_numbered_slices [3, 1, 4, 2] false).length +
        (get_numbered_slices [3, 1, 4, 2] true).length = 4 ∧
    (∀ i ∈ sliceIndices 4,
      (i ∈ get_numbered_slices [3, 1, 4, 2] false ↔
        i ∉ get_numbered_slices [3, 1, 4, 2] true)) ∧
    (get_numbered_slices [3, 1, 4, 2] false ++
        get_numbered_slices [3, 1, 4, 2] true).Perm (sliceIndices 4) ∧
    get_numbered_slices [3, 1, 4, 2] false =
      (sliceIndices 4).filter (fun n => n % 2 == 1) ∧
    get_numbered_slices [3, 1, 4, 2] true =
      (sliceIndices 4).filter (fun n => n % 2 == 0)) :=
  ⟨by decide, c6_parity_partition [3, 1, 4, 2] 4 (by decide)⟩

/-- C7 counterexample: the pipeline's slicing step on the synthetic 4-wide,
8-tall buffer with `N = 4` produces four 1x8 column bands, not four 4x2 row
bands as the scenario states. -/
theorem c7_counterexample_strip_dims :
    ¬ (slice_image_vertically img4x8 4).map (fun s => (s.width, s.height)) =
      [(4, 2), (4, 2), (4, 2), (4, 2)] := by
  decide

/-- C7 as amended: the synthetic 4-wide, 8-tall buffer run through the
pipeline's first pass with `N = 4` yields exactly 4 strips each 1x8; the
parity split gives odd group {1, 3} and even group {2, 4}; stitching each
group horizontally yields two 2x8 buffers; merging the two horizontally
yields one 4x8 buffer; rotating that by 90 degrees with expand yields an
8x4 buffer. -/
theorem c7_amended_end_to_end :
    (slice_image_vertically img4x8 4).map (fun s => (s.width, s.height)) =
      [(1, 8), (1, 8), (1, 8), (1, 8)] ∧
    get_numbered_slices (sliceIndices (slice_image_vertically img4x8 4).length)
      false = [1, 3] ∧
    get_numbered_slices (sliceIndices (slice_image_vertically img4x8 4).length)
      true = [2, 4] ∧
    (stitch_images_horizontally (selectStrips (slice_image_vertically img4x8 4)
      [1, 3])).map (fun o => (o.width, o.height)) = some (2, 8) ∧
    (stitch_images_horizontally (selectStrips (slice_image_vertically img4x8 4)
      [2, 4])).map (fun o => (o.width, o.height)) = some (2, 8) ∧
    ((stitch_images_horizontally (selectStrips (slice_image_vertically img4x8 4)
      [1, 3])).bind fun oddC =>
        (stitch_images_horizontally (selectStrips (slice_image_vertically img4x8 4)
          [2, 4])).map fun evenC =>
            ((merge_images_horizontally oddC evenC).width,
              (merge_images_horizontally oddC evenC).height)) = some (4, 8) ∧
    (pipeline_first_pass img4x8 4).map (fun o => (o.width, o.height)) = some (8, 4) := by
  decide
